import Mathlib

/-!
Shallow embedding of the growable byte buffer in src/code/buffer/buffer.cpp.

The backing std::vector of char is modelled as a List Nat of bytes; the two
cursors readPos_ and writePos_ are Nat indices.  Descriptor transfers (readv,
write) are modelled by passing in the outcome of the single system call: either
a negative return value together with the errno the platform reports, or the
byte sequence the call delivered.  The out-parameter int* saveErrno is modelled
by passing the slot's previous contents in and returning its final contents.
-/

/-- Writes data into list l starting at index pos, overwriting in place
(models std::copy / readv filling a region of the vector). -/
def setRange (l : List Nat) (pos : Nat) (data : List Nat) : List Nat :=
  l.take pos ++ data ++ l.drop (pos + data.length)

/-- Models std::vector::resize n: truncate to n or pad with zero bytes up to n. -/
def resize (l : List Nat) (n : Nat) : List Nat :=
  l.take n ++ List.replicate (n - l.length) 0

/-- The Buffer class: backing store buffer_, cursors readPos_ and writePos_. -/
structure Buffer where
  store : List Nat
  readPos : Nat
  writePos : Nat
deriving DecidableEq, Repr

/-- Constructor Buffer(int initBuffersize): vector of initBuffersize zero bytes,
both cursors zero. -/
def Buffer.init (initBuffersize : Nat) : Buffer :=
  { store := List.replicate initBuffersize 0, readPos := 0, writePos := 0 }

/-- ReadableBytes() = writePos_ - readPos_. -/
def Buffer.ReadableBytes (b : Buffer) : Nat := b.writePos - b.readPos

/-- WritableBytes() = buffer_.size() - writePos_. -/
def Buffer.WritableBytes (b : Buffer) : Nat := b.store.length - b.writePos

/-- PrependableBytes() = readPos_. -/
def Buffer.PrependableBytes (b : Buffer) : Nat := b.readPos

/-- The readable region [readPos_, writePos_) of the store, i.e. the bytes
reachable from Peek() for ReadableBytes() bytes. -/
def Buffer.readableContent (b : Buffer) : List Nat :=
  (b.store.take b.writePos).drop b.readPos

/-- Retrieve(len): readPos_ += len.  The code asserts len <= ReadableBytes();
the assertion is carried as a hypothesis of the theorems. -/
def Buffer.Retrieve (b : Buffer) (len : Nat) : Buffer :=
  { b with readPos := b.readPos + len }

/-- RetrieveUntil(end): Retrieve(end - Peek()); the pointer end is modelled as
the index endIdx into the store, so end - Peek() = endIdx - readPos_. -/
def Buffer.RetrieveUntil (b : Buffer) (endIdx : Nat) : Buffer :=
  b.Retrieve (endIdx - b.readPos)

/-- RetrieveAll(): bzero the whole store, reset both cursors to 0. -/
def Buffer.RetrieveAll (b : Buffer) : Buffer :=
  { store := List.replicate b.store.length 0, readPos := 0, writePos := 0 }

/-- RetrieveAllToStr(): build the string from Peek() of length ReadableBytes(),
then RetrieveAll(); returns the string and the resulting buffer state. -/
def Buffer.RetrieveAllToStr (b : Buffer) : List Nat × Buffer :=
  (b.readableContent, b.RetrieveAll)

/-- HasWritten(len): writePos_ += len (no check in the code; the documented
caller obligation len <= WritableBytes() is carried as a hypothesis). -/
def Buffer.HasWritten (b : Buffer) (len : Nat) : Buffer :=
  { b with writePos := b.writePos + len }

/-- MakeSpace_(len): if WritableBytes() + PrependableBytes() < len, resize the
store to writePos_ + len + 1; otherwise copy [readPos_, writePos_) down to
offset 0, set readPos_ = 0 and writePos_ = readPos_ + readable. -/
def Buffer.MakeSpace_ (b : Buffer) (len : Nat) : Buffer :=
  if b.WritableBytes + b.PrependableBytes < len then
    { b with store := resize b.store (b.writePos + len + 1) }
  else
    let readable := b.ReadableBytes
    { store := setRange b.store 0 ((b.store.drop b.readPos).take (b.writePos - b.readPos)),
      readPos := 0,
      writePos := 0 + readable }

/-- EnsureWriteable(len): call MakeSpace_(len) when WritableBytes() < len. -/
def Buffer.EnsureWriteable (b : Buffer) (len : Nat) : Buffer :=
  if b.WritableBytes < len then b.MakeSpace_ len else b

/-- Append(str, len): EnsureWriteable(len), copy the data to BeginWrite(),
HasWritten(len). -/
def Buffer.Append (b : Buffer) (data : List Nat) : Buffer :=
  let b1 := b.EnsureWriteable data.length
  Buffer.HasWritten { b1 with store := setRange b1.store b1.writePos data } data.length

/-- Outcome of the single readv call inside ReadFd: either a negative return
value with the platform errno, or the delivered byte sequence (scattered first
into the writable tail, then into the 65535-byte stack scratch area). -/
inductive ReadvOutcome where
  | fail (ret : Int) (errnoVal : Nat)
  | deliver (data : List Nat)
deriving DecidableEq, Repr

/-- Outcome of the single write call inside WriteFd: either a negative return
value with the platform errno, or a count n of bytes accepted. -/
inductive WriteOutcome where
  | fail (ret : Int) (errnoVal : Nat)
  | wrote (n : Nat)
deriving DecidableEq, Repr

/-- Result of ReadFd or WriteFd: the buffer afterwards, the ssize_t return
value, and the final contents of the int slot saveErrno points to. -/
structure FdResult where
  buf : Buffer
  ret : Int
  errSlot : Nat
deriving DecidableEq, Repr

/-- ReadFd(fd, saveErrno): one readv into the writable tail plus the scratch
area.  Negative return: record errno, state untouched.  Length at most
WritableBytes(): the tail received the data, writePos_ += len.  Larger: the
tail is full, writePos_ = buffer_.size(), the overflow that landed in the
scratch area is appended via Append. -/
def Buffer.ReadFd (b : Buffer) (saveErrno : Nat) (r : ReadvOutcome) : FdResult :=
  match r with
  | .fail ret e => ⟨b, ret, e⟩
  | .deliver data =>
    let writable := b.WritableBytes
    if data.length ≤ writable then
      ⟨{ b with store := setRange b.store b.writePos data,
                writePos := b.writePos + data.length },
       (data.length : Int), saveErrno⟩
    else
      let b1 : Buffer :=
        { b with store := setRange b.store b.writePos (data.take writable),
                 writePos := b.store.length }
      ⟨b1.Append (data.drop writable), (data.length : Int), saveErrno⟩

/-- WriteFd(fd, saveErrno): one write of the readable region.  Negative
return: record errno, return it, readPos_ untouched.  Otherwise the call
accepted n bytes (n at most ReadableBytes(), enforced by the platform):
readPos_ += n. -/
def Buffer.WriteFd (b : Buffer) (saveErrno : Nat) (r : WriteOutcome) : FdResult :=
  match r with
  | .fail ret e => ⟨b, ret, e⟩
  | .wrote n => ⟨{ b with readPos := b.readPos + n }, (n : Int), saveErrno⟩

/-- The cursor invariant: readPos_ <= writePos_ <= buffer_.size(). -/
def Buffer.Inv (b : Buffer) : Prop :=
  b.readPos ≤ b.writePos ∧ b.writePos ≤ b.store.length

instance (b : Buffer) : Decidable b.Inv := by
  unfold Buffer.Inv
  infer_instance

/-- One public operation on a Buffer, for stating the all-sequences invariant. -/
inductive Op where
  | retrieve (len : Nat)
  | retrieveUntil (endIdx : Nat)
  | retrieveAll
  | retrieveAllToStr
  | hasWritten (len : Nat)
  | append (data : List Nat)
  | ensureWriteable (len : Nat)
  | readFd (saveErrno : Nat) (r : ReadvOutcome)
  | writeFd (saveErrno : Nat) (r : WriteOutcome)
deriving DecidableEq, Repr

/-- The state transition of each public operation. -/
def applyOp (b : Buffer) : Op → Buffer
  | .retrieve len => b.Retrieve len
  | .retrieveUntil e => b.RetrieveUntil e
  | .retrieveAll => b.RetrieveAll
  | .retrieveAllToStr => (b.RetrieveAllToStr).2
  | .hasWritten len => b.HasWritten len
  | .append data => b.Append data
  | .ensureWriteable len => b.EnsureWriteable len
  | .readFd s r => (b.ReadFd s r).buf
  | .writeFd s r => (b.WriteFd s r).buf

/-- The documented precondition of each operation: the assertions in
Retrieve and RetrieveUntil, the caller obligation of HasWritten, and the
bounds the platform guarantees for readv and write outcomes. -/
def preOk (b : Buffer) : Op → Bool
  | .retrieve len => len ≤ b.ReadableBytes
  | .retrieveUntil e => b.readPos ≤ e && e ≤ b.writePos
  | .retrieveAll => true
  | .retrieveAllToStr => true
  | .hasWritten len => len ≤ b.WritableBytes
  | .append _ => true
  | .ensureWriteable _ => true
  | .readFd _ r =>
    match r with
    | .fail ret _ => ret < 0
    | .deliver data => data.length ≤ b.WritableBytes + 65535
  | .writeFd _ r =>
    match r with
    | .fail ret _ => ret < 0
    | .wrote n => n ≤ b.ReadableBytes

/-- A call sequence in which every operation meets its precondition when it
runs. -/
def validTrace (b : Buffer) : List Op → Bool
  | [] => true
  | op :: ops => preOk b op && validTrace (applyOp b op) ops

/-- Run a sequence of operations from a state. -/
def runOps (b : Buffer) (ops : List Op) : Buffer := ops.foldl applyOp b

/-! Basic facts about the list helpers. -/

lemma take_append_small (A B : List Nat) (n : Nat) (h : n ≤ A.length) :
    (A ++ B).take n = A.take n := by
  rw [List.take_append_eq_append_take]
  have h0 : n - A.length = 0 := by omega
  rw [h0, List.take_zero, List.append_nil]

lemma drop_append_small (A B : List Nat) (n : Nat) (h : n ≤ A.length) :
    (A ++ B).drop n = A.drop n ++ B := by
  rw [List.drop_append_eq_append_drop]
  have h0 : n - A.length = 0 := by omega
  rw [h0, List.drop_zero]

lemma length_resize (l : List Nat) (n : Nat) : (resize l n).length = n := by
  simp [resize]
  omega

lemma length_setRange (l data : List Nat) (pos : Nat)
    (h : pos + data.length ≤ l.length) :
    (setRange l pos data).length = l.length := by
  simp [setRange]
  omega

lemma length_readableContent (b : Buffer) (h : b.Inv) :
    b.readableContent.length = b.ReadableBytes := by
  obtain ⟨h1, h2⟩ := h
  simp [Buffer.readableContent, Buffer.ReadableBytes]
  omega

lemma readableBytes_of_content (b c : Buffer) (hb : b.Inv) (hc : c.Inv)
    (h : c.readableContent = b.readableContent) :
    c.ReadableBytes = b.ReadableBytes := by
  rw [← length_readableContent b hb, ← length_readableContent c hc, h]

/-! Writing data into the tail at writePos and advancing the write cursor:
the common shape of HasWritten after a copy, shared by Append and the
tail-filling part of ReadFd. -/

lemma readableContent_writeAt (b : Buffer) (data : List Nat) (hInv : b.Inv)
    (hfit : data.length ≤ b.WritableBytes) :
    Buffer.readableContent
        ⟨setRange b.store b.writePos data, b.readPos, b.writePos + data.length⟩
      = b.readableContent ++ data := by
  obtain ⟨h1, h2⟩ := hInv
  have hd : data.length ≤ b.store.length - b.writePos := hfit
  show ((setRange b.store b.writePos data).take
          (b.writePos + data.length)).drop b.readPos
      = (b.store.take b.writePos).drop b.readPos ++ data
  unfold setRange
  rw [List.take_left' (by simp; omega)]
  rw [drop_append_small _ _ _ (by simp; omega)]

lemma inv_writeAt (b : Buffer) (data : List Nat) (hInv : b.Inv)
    (hfit : data.length ≤ b.WritableBytes) :
    Buffer.Inv
      ⟨setRange b.store b.writePos data, b.readPos, b.writePos + data.length⟩ := by
  obtain ⟨h1, h2⟩ := hInv
  have hd : data.length ≤ b.store.length - b.writePos := hfit
  constructor
  · show b.readPos ≤ b.writePos + data.length
    omega
  · show b.writePos + data.length ≤ (setRange b.store b.writePos data).length
    rw [length_setRange _ _ _ (by omega)]
    omega

lemma length_writeAt (b : Buffer) (data : List Nat) (hInv : b.Inv)
    (hfit : data.length ≤ b.WritableBytes) :
    (setRange b.store b.writePos data).length = b.store.length := by
  obtain ⟨h1, h2⟩ := hInv
  have hd : data.length ≤ b.store.length - b.writePos := hfit
  exact length_setRange _ _ _ (by omega)

/-! Behaviour of MakeSpace_ on each branch. -/

lemma makeSpace_grow_spec (b : Buffer) (len : Nat) (hInv : b.Inv)
    (hc : b.WritableBytes + b.PrependableBytes < len) :
    (b.MakeSpace_ len).store.length = b.writePos + len + 1 ∧
    (b.MakeSpace_ len).readPos = b.readPos ∧
    (b.MakeSpace_ len).writePos = b.writePos ∧
    (b.MakeSpace_ len).readableContent = b.readableContent := by
  obtain ⟨h1, h2⟩ := hInv
  have hwp : b.WritableBytes = b.store.length - b.writePos := rfl
  have hpp : b.PrependableBytes = b.readPos := rfl
  have hms : b.MakeSpace_ len =
      { b with store := resize b.store (b.writePos + len + 1) } := by
    unfold Buffer.MakeSpace_
    rw [if_pos hc]
  refine ⟨?_, ?_, ?_, ?_⟩
  · rw [hms]
    exact length_resize _ _
  · rw [hms]
  · rw [hms]
  · rw [hms]
    show ((resize b.store (b.writePos + len + 1)).take b.writePos).drop b.readPos
        = (b.store.take b.writePos).drop b.readPos
    unfold resize
    rw [take_append_small _ _ _ (by simp; omega)]
    rw [List.take_take]
    have hmin : min b.writePos (b.writePos + len + 1) = b.writePos := by omega
    rw [hmin]

lemma makeSpace_compact_spec (b : Buffer) (len : Nat) (hInv : b.Inv)
    (hc : ¬ (b.WritableBytes + b.PrependableBytes < len)) :
    (b.MakeSpace_ len).readPos = 0 ∧
    (b.MakeSpace_ len).writePos = b.ReadableBytes ∧
    (b.MakeSpace_ len).store.length = b.store.length ∧
    (b.MakeSpace_ len).readableContent = b.readableContent := by
  obtain ⟨h1, h2⟩ := hInv
  have hR : (b.store.drop b.readPos).take (b.writePos - b.readPos)
      = b.readableContent := by
    unfold Buffer.readableContent
    rw [List.drop_take]
  have hRlen : b.readableContent.length = b.writePos - b.readPos := by
    have := length_readableContent b ⟨h1, h2⟩
    exact this
  have hms : b.MakeSpace_ len =
      { store := b.readableContent ++ b.store.drop (b.writePos - b.readPos),
        readPos := 0, writePos := 0 + b.ReadableBytes } := by
    unfold Buffer.MakeSpace_
    rw [if_neg hc]
    simp only [setRange, List.take_zero, List.nil_append, Nat.zero_add, hR, hRlen]
  refine ⟨?_, ?_, ?_, ?_⟩
  · rw [hms]
  · rw [hms]
    show 0 + b.ReadableBytes = b.ReadableBytes
    omega
  · rw [hms]
    show (b.readableContent ++ b.store.drop (b.writePos - b.readPos)).length
        = b.store.length
    simp [hRlen]
    omega
  · rw [hms]
    show ((b.readableContent ++ b.store.drop (b.writePos - b.readPos)).take
            (0 + b.ReadableBytes)).drop 0
        = b.readableContent
    rw [List.drop_zero, List.take_left'
      (by rw [hRlen]
          show b.writePos - b.readPos = 0 + (b.writePos - b.readPos)
          omega)]

lemma makeSpace_main (b : Buffer) (len : Nat) (hInv : b.Inv) :
    (b.MakeSpace_ len).Inv ∧
    len ≤ (b.MakeSpace_ len).WritableBytes ∧
    (b.MakeSpace_ len).readableContent = b.readableContent := by
  obtain ⟨h1, h2⟩ := hInv
  have hwp : b.WritableBytes = b.store.length - b.writePos := rfl
  have hpp : b.PrependableBytes = b.readPos := rfl
  by_cases hc : b.WritableBytes + b.PrependableBytes < len
  · obtain ⟨hl, hr, hw, hcont⟩ := makeSpace_grow_spec b len ⟨h1, h2⟩ hc
    refine ⟨⟨?_, ?_⟩, ?_, hcont⟩
    · rw [hr, hw]; exact h1
    · rw [hw, hl]; omega
    · show len ≤ (b.MakeSpace_ len).store.length - (b.MakeSpace_ len).writePos
      rw [hw, hl]; omega
  · obtain ⟨hr, hw, hl, hcont⟩ := makeSpace_compact_spec b len ⟨h1, h2⟩ hc
    have hrb : b.ReadableBytes = b.writePos - b.readPos := rfl
    refine ⟨⟨?_, ?_⟩, ?_, hcont⟩
    · rw [hr]; omega
    · rw [hw, hl, hrb]; omega
    · show len ≤ (b.MakeSpace_ len).store.length - (b.MakeSpace_ len).writePos
      rw [hw, hl, hrb]
      omega

/-! Behaviour of EnsureWriteable, Append and the descriptor transfers. -/

lemma ensureWriteable_spec (b : Buffer) (len : Nat) (hInv : b.Inv) :
    (b.EnsureWriteable len).Inv ∧
    len ≤ (b.EnsureWriteable len).WritableBytes ∧
    (b.EnsureWriteable len).readableContent = b.readableContent := by
  by_cases hc : b.WritableBytes < len
  · have he : b.EnsureWriteable len = b.MakeSpace_ len := by
      unfold Buffer.EnsureWriteable
      rw [if_pos hc]
    rw [he]
    exact makeSpace_main b len hInv
  · have he : b.EnsureWriteable len = b := by
      unfold Buffer.EnsureWriteable
      rw [if_neg hc]
    rw [he]
    exact ⟨hInv, by omega, rfl⟩

lemma append_spec (b : Buffer) (data : List Nat) (hInv : b.Inv) :
    (b.Append data).Inv ∧
    (b.Append data).readableContent = b.readableContent ++ data ∧
    (b.Append data).ReadableBytes = b.ReadableBytes + data.length := by
  obtain ⟨hi, hw, hcont⟩ := ensureWriteable_spec b data.length hInv
  have hrb := readableBytes_of_content b (b.EnsureWriteable data.length) hInv hi hcont
  have happ : b.Append data =
      ⟨setRange (b.EnsureWriteable data.length).store
          (b.EnsureWriteable data.length).writePos data,
        (b.EnsureWriteable data.length).readPos,
        (b.EnsureWriteable data.length).writePos + data.length⟩ := rfl
  rw [happ]
  refine ⟨inv_writeAt _ data hi hw, ?_, ?_⟩
  · rw [readableContent_writeAt _ data hi hw, hcont]
  · show ((b.EnsureWriteable data.length).writePos + data.length)
        - (b.EnsureWriteable data.length).readPos
      = b.ReadableBytes + data.length
    obtain ⟨hi1, hi2⟩ := hi
    rw [← hrb]
    show _ = ((b.EnsureWriteable data.length).writePos
        - (b.EnsureWriteable data.length).readPos) + data.length
    omega

lemma readFd_deliver_spec (b : Buffer) (s : Nat) (data : List Nat) (hInv : b.Inv) :
    (b.ReadFd s (.deliver data)).buf.Inv ∧
    (b.ReadFd s (.deliver data)).buf.readableContent = b.readableContent ++ data ∧
    (b.ReadFd s (.deliver data)).ret = (data.length : Int) ∧
    (b.ReadFd s (.deliver data)).errSlot = s := by
  obtain ⟨h1, h2⟩ := hInv
  by_cases hfit : data.length ≤ b.WritableBytes
  · have hr : b.ReadFd s (.deliver data) =
        ⟨⟨setRange b.store b.writePos data, b.readPos, b.writePos + data.length⟩,
         (data.length : Int), s⟩ := by
      show (if data.length ≤ b.WritableBytes then _ else _) = _
      rw [if_pos hfit]
    rw [hr]
    exact ⟨inv_writeAt b data ⟨h1, h2⟩ hfit,
           readableContent_writeAt b data ⟨h1, h2⟩ hfit, rfl, rfl⟩
  · have hlen' : (data.take b.WritableBytes).length = b.WritableBytes := by
      simp
      omega
    have hwlen : b.store.length = b.writePos + (data.take b.WritableBytes).length := by
      rw [hlen']
      show b.store.length = b.writePos + (b.store.length - b.writePos)
      omega
    have hb1 : ({ b with
                  store := setRange b.store b.writePos (data.take b.WritableBytes),
                  writePos := b.store.length } : Buffer)
        = ⟨setRange b.store b.writePos (data.take b.WritableBytes), b.readPos,
           b.writePos + (data.take b.WritableBytes).length⟩ := by
      rw [← hwlen]
    have hfit' : (data.take b.WritableBytes).length ≤ b.WritableBytes := by
      rw [hlen']
    have hinv1 := inv_writeAt b (data.take b.WritableBytes) ⟨h1, h2⟩ hfit'
    have hcont1 := readableContent_writeAt b (data.take b.WritableBytes) ⟨h1, h2⟩ hfit'
    have hr : b.ReadFd s (.deliver data) =
        ⟨Buffer.Append
            { b with
              store := setRange b.store b.writePos (data.take b.WritableBytes),
              writePos := b.store.length }
            (data.drop b.WritableBytes),
         (data.length : Int), s⟩ := by
      show (if data.length ≤ b.WritableBytes then _ else _) = _
      rw [if_neg hfit]
    rw [hr]
    rw [hb1]
    obtain ⟨hai, hacont, harb⟩ :=
      append_spec ⟨setRange b.store b.writePos (data.take b.WritableBytes), b.readPos,
        b.writePos + (data.take b.WritableBytes).length⟩ (data.drop b.WritableBytes) hinv1
    refine ⟨hai, ?_, rfl, rfl⟩
    rw [hacont, hcont1, List.append_assoc, List.take_append_drop]

/-! Every public operation run under its precondition preserves the cursor
invariant. -/

lemma step_inv (b : Buffer) (op : Op) (hInv : b.Inv) (hpre : preOk b op = true) :
    (applyOp b op).Inv := by
  obtain ⟨h1, h2⟩ := hInv
  cases op with
  | retrieve len =>
    simp only [preOk, decide_eq_true_eq] at hpre
    have hr : b.ReadableBytes = b.writePos - b.readPos := rfl
    rw [hr] at hpre
    exact ⟨by show b.readPos + len ≤ b.writePos; omega, h2⟩
  | retrieveUntil e =>
    simp only [preOk, Bool.and_eq_true, decide_eq_true_eq] at hpre
    exact ⟨by show b.readPos + (e - b.readPos) ≤ b.writePos; omega, h2⟩
  | retrieveAll =>
    exact ⟨Nat.le_refl 0, Nat.zero_le _⟩
  | retrieveAllToStr =>
    exact ⟨Nat.le_refl 0, Nat.zero_le _⟩
  | hasWritten len =>
    simp only [preOk, decide_eq_true_eq] at hpre
    have hw : b.WritableBytes = b.store.length - b.writePos := rfl
    rw [hw] at hpre
    exact ⟨by show b.readPos ≤ b.writePos + len; omega,
           by show b.writePos + len ≤ b.store.length; omega⟩
  | append data =>
    exact (append_spec b data ⟨h1, h2⟩).1
  | ensureWriteable len =>
    exact (ensureWriteable_spec b len ⟨h1, h2⟩).1
  | readFd s r =>
    cases r with
    | fail ret e => exact ⟨h1, h2⟩
    | deliver data => exact (readFd_deliver_spec b s data ⟨h1, h2⟩).1
  | writeFd s r =>
    cases r with
    | fail ret e => exact ⟨h1, h2⟩
    | wrote n =>
      simp only [preOk, decide_eq_true_eq] at hpre
      have hr : b.ReadableBytes = b.writePos - b.readPos := rfl
      rw [hr] at hpre
      exact ⟨by show b.readPos + n ≤ b.writePos; omega, h2⟩

lemma validTrace_inv (ops : List Op) : ∀ (b : Buffer), b.Inv →
    validTrace b ops = true → ∀ i, (runOps b (ops.take i)).Inv := by
  induction ops with
  | nil =>
    intro b hb _ i
    simpa [runOps] using hb
  | cons op rest ih =>
    intro b hb hv i
    rw [validTrace, Bool.and_eq_true] at hv
    cases i with
    | zero => simpa [runOps] using hb
    | succ j =>
      have hstep := step_inv b op hb hv.1
      have hrest := ih (applyOp b op) hstep hv.2 j
      simpa [runOps, List.take_succ_cons] using hrest

/-- Claim C1: a non-negative byte count n delivered by the single readv call
in ReadFd is never lost: the call returns n, ReadableBytes grows by exactly n,
and the readable content afterwards is the prior readable content followed by
the n delivered bytes.  When n fits in WritableBytes the store keeps its size
and writePos advances by n; when n exceeds WritableBytes, writePos is set to
the store end and the overflow that landed in the 65535-byte scratch area is
appended via the normal Append path. -/
theorem C1_readFd_no_data_loss (b : Buffer) (s : Nat) (data : List Nat)
    (hInv : b.Inv) (hcap : data.length ≤ b.WritableBytes + 65535) :
    (b.ReadFd s (.deliver data)).ret = (data.length : Int) ∧
    (b.ReadFd s (.deliver data)).buf.Inv ∧
    (b.ReadFd s (.deliver data)).buf.ReadableBytes
      = b.ReadableBytes + data.length ∧
    (b.ReadFd s (.deliver data)).buf.readableContent
      = b.readableContent ++ data ∧
    (data.length ≤ b.WritableBytes →
      (b.ReadFd s (.deliver data)).buf.store.length = b.store.length ∧
      (b.ReadFd s (.deliver data)).buf.writePos = b.writePos + data.length) ∧
    (b.WritableBytes < data.length →
      (b.ReadFd s (.deliver data)).buf =
        Buffer.Append
          { b with
            store := setRange b.store b.writePos (data.take b.WritableBytes),
            writePos := b.store.length }
          (data.drop b.WritableBytes)) := by
  obtain ⟨hi, hcont, hret, hslot⟩ := readFd_deliver_spec b s data hInv
  refine ⟨hret, hi, ?_, hcont, ?_, ?_⟩
  · have hlen2 := length_readableContent _ hi
    rw [hcont] at hlen2
    rw [← hlen2, List.length_append, length_readableContent b hInv]
  · intro hfit
    have hr : b.ReadFd s (.deliver data) =
        ⟨⟨setRange b.store b.writePos data, b.readPos, b.writePos + data.length⟩,
         (data.length : Int), s⟩ := by
      show (if data.length ≤ b.WritableBytes then _ else _) = _
      rw [if_pos hfit]
    rw [hr]
    exact ⟨length_writeAt b data hInv hfit, rfl⟩
  · intro hbig
    have hr : b.ReadFd s (.deliver data) =
        ⟨Buffer.Append
            { b with
              store := setRange b.store b.writePos (data.take b.WritableBytes),
              writePos := b.store.length }
            (data.drop b.WritableBytes),
         (data.length : Int), s⟩ := by
      show (if data.length ≤ b.WritableBytes then _ else _) = _
      rw [if_neg (by omega)]
    rw [hr]

/-- Claim C1 witness: a buffer of size 2 with one readable byte receives three
bytes, more than its writable tail, and loses nothing. -/
theorem C1_readFd_no_data_loss_witness :
    Buffer.Inv ⟨[5, 0], 0, 1⟩ ∧
    (3 : Nat) ≤ Buffer.WritableBytes ⟨[5, 0], 0, 1⟩ + 65535 ∧
    (Buffer.ReadFd ⟨[5, 0], 0, 1⟩ 0 (.deliver [7, 8, 9])).buf.readableContent
      = Buffer.readableContent ⟨[5, 0], 0, 1⟩ ++ [7, 8, 9] :=
  ⟨by decide, by decide,
   (C1_readFd_no_data_loss ⟨[5, 0], 0, 1⟩ 0 [7, 8, 9]
      (by decide) (by decide)).2.2.2.1⟩

/-- Claim C2: along every sequence of public operations started from a freshly
constructed buffer, each operation meeting its documented precondition when it
runs, the cursor invariant readPos at most writePos at most store size holds
after every call, i.e. after every prefix of the sequence. -/
theorem C2_invariant_all_sequences (c : Nat) (ops : List Op) (i : Nat)
    (hvalid : validTrace (Buffer.init c) ops = true) :
    (runOps (Buffer.init c) (ops.take i)).Inv :=
  validTrace_inv ops (Buffer.init c) ⟨Nat.le_refl 0, Nat.zero_le _⟩ hvalid i

/-- Claim C2 witness: a seven-step sequence exercising append, retrieve,
ensure, direct write, descriptor write, an oversized descriptor read and the
full reset, run from a fresh buffer of capacity 4. -/
theorem C2_invariant_all_sequences_witness :
    validTrace (Buffer.init 4)
      [Op.append [1, 2, 3], Op.retrieve 2, Op.ensureWriteable 6,
       Op.hasWritten 1, Op.writeFd 0 (WriteOutcome.wrote 1),
       Op.readFd 0 (ReadvOutcome.deliver [7, 7, 7, 7, 7, 7, 7, 7]),
       Op.retrieveAllToStr] = true ∧
    (runOps (Buffer.init 4)
      ([Op.append [1, 2, 3], Op.retrieve 2, Op.ensureWriteable 6,
        Op.hasWritten 1, Op.writeFd 0 (WriteOutcome.wrote 1),
        Op.readFd 0 (ReadvOutcome.deliver [7, 7, 7, 7, 7, 7, 7, 7]),
        Op.retrieveAllToStr].take 7)).Inv :=
  ⟨by decide,
   C2_invariant_all_sequences 4
     [Op.append [1, 2, 3], Op.retrieve 2, Op.ensureWriteable 6,
      Op.hasWritten 1, Op.writeFd 0 (WriteOutcome.wrote 1),
      Op.readFd 0 (ReadvOutcome.deliver [7, 7, 7, 7, 7, 7, 7, 7]),
      Op.retrieveAllToStr] 7 (by decide)⟩

/-- Claim C3: when WritableBytes is short of len, MakeSpace_ either grows the
store to writePos + len + 1 (when even the prependable space would not cover
the request, cursors untouched) or compacts in place (readable region moved to
offset 0, readPos becomes 0, writePos becomes the readable length, store size
unchanged); in both branches WritableBytes is at least len afterwards, and
EnsureWriteable(len) is exactly this MakeSpace_ call. -/
theorem C3_makeSpace_policy (b : Buffer) (len : Nat) (hInv : b.Inv)
    (hneed : b.WritableBytes < len) :
    (b.WritableBytes + b.PrependableBytes < len →
      (b.MakeSpace_ len).store.length = b.writePos + len + 1 ∧
      (b.MakeSpace_ len).readPos = b.readPos ∧
      (b.MakeSpace_ len).writePos = b.writePos) ∧
    (len ≤ b.WritableBytes + b.PrependableBytes →
      (b.MakeSpace_ len).readPos = 0 ∧
      (b.MakeSpace_ len).writePos = b.ReadableBytes ∧
      (b.MakeSpace_ len).store.length = b.store.length ∧
      (b.MakeSpace_ len).store.take b.ReadableBytes = b.readableContent) ∧
    len ≤ (b.MakeSpace_ len).WritableBytes ∧
    b.EnsureWriteable len = b.MakeSpace_ len := by
  refine ⟨?_, ?_, (makeSpace_main b len hInv).2.1, ?_⟩
  · intro hc
    obtain ⟨hl, hr, hw, _⟩ := makeSpace_grow_spec b len hInv hc
    exact ⟨hl, hr, hw⟩
  · intro hc
    have hc' : ¬ (b.WritableBytes + b.PrependableBytes < len) := by omega
    obtain ⟨hr, hw, hl, hcont⟩ := makeSpace_compact_spec b len hInv hc'
    refine ⟨hr, hw, hl, ?_⟩
    unfold Buffer.readableContent at hcont
    rw [hr, hw, List.drop_zero] at hcont
    exact hcont
  · unfold Buffer.EnsureWriteable
    rw [if_pos hneed]

/-- Claim C3 witness: a buffer of size 4 with two writable and one prependable
byte asked for three bytes takes the compaction branch and ends with three
writable bytes. -/
theorem C3_makeSpace_policy_witness :
    Buffer.Inv ⟨[9, 1, 2, 0], 1, 2⟩ ∧
    Buffer.WritableBytes ⟨[9, 1, 2, 0], 1, 2⟩ < 3 ∧
    3 ≤ (Buffer.MakeSpace_ ⟨[9, 1, 2, 0], 1, 2⟩ 3).WritableBytes :=
  ⟨by decide, by decide,
   (C3_makeSpace_policy ⟨[9, 1, 2, 0], 1, 2⟩ 3 (by decide) (by decide)).2.2.1⟩

/-- Claim C4: EnsureWriteable leaves the readable payload untouched in both
branches of the space-making policy: ReadableBytes and the readable content
are unchanged, WritableBytes is at least the requested length afterwards, and
the cursor invariant still holds. -/
theorem C4_ensureWriteable_preserves_payload (b : Buffer) (len : Nat)
    (hInv : b.Inv) :
    (b.EnsureWriteable len).ReadableBytes = b.ReadableBytes ∧
    (b.EnsureWriteable len).readableContent = b.readableContent ∧
    len ≤ (b.EnsureWriteable len).WritableBytes ∧
    (b.EnsureWriteable len).Inv := by
  obtain ⟨hi, hw, hcont⟩ := ensureWriteable_spec b len hInv
  exact ⟨readableBytes_of_content b _ hInv hi hcont, hcont, hw, hi⟩

/-- Claim C4 witness: a buffer with readable payload at a nonzero readPos,
asked for more than its tail, keeps its payload; a large request that forces
growth keeps it as well. -/
theorem C4_ensureWriteable_preserves_payload_witness :
    Buffer.Inv ⟨[9, 1, 2, 0], 1, 3⟩ ∧
    (Buffer.EnsureWriteable ⟨[9, 1, 2, 0], 1, 3⟩ 2).readableContent
      = Buffer.readableContent ⟨[9, 1, 2, 0], 1, 3⟩ ∧
    (Buffer.EnsureWriteable ⟨[9, 1, 2, 0], 1, 3⟩ 50).readableContent
      = Buffer.readableContent ⟨[9, 1, 2, 0], 1, 3⟩ :=
  ⟨by decide,
   (C4_ensureWriteable_preserves_payload ⟨[9, 1, 2, 0], 1, 3⟩ 2 (by decide)).2.1,
   (C4_ensureWriteable_preserves_payload ⟨[9, 1, 2, 0], 1, 3⟩ 50 (by decide)).2.1⟩

/-- Claim C5: WriteFd transfers the readable region once; on a negative
result the buffer is unmutated, the error slot gets the platform code and the
negative value is returned; on a non-negative count n, readPos advances by
exactly n (a short write retires only n bytes and the rest stays readable),
and a later call delivering the remaining count drains the buffer to
ReadableBytes zero. -/
theorem C5_writeFd_short_write (b : Buffer) (s : Nat) (e : Int) (code : Nat)
    (n : Nat) (hInv : b.Inv) (hneg : e < 0) (hn : n ≤ b.ReadableBytes) :
    (b.WriteFd s (.fail e code)).buf = b ∧
    (b.WriteFd s (.fail e code)).ret = e ∧
    (b.WriteFd s (.fail e code)).ret < 0 ∧
    (b.WriteFd s (.fail e code)).errSlot = code ∧
    (b.WriteFd s (.wrote n)).buf.readPos = b.readPos + n ∧
    (b.WriteFd s (.wrote n)).ret = (n : Int) ∧
    (b.WriteFd s (.wrote n)).errSlot = s ∧
    (b.WriteFd s (.wrote n)).buf.ReadableBytes = b.ReadableBytes - n ∧
    (b.WriteFd s (.wrote n)).buf.readableContent = b.readableContent.drop n ∧
    ((b.WriteFd s (.wrote n)).buf.WriteFd s
        (.wrote (b.ReadableBytes - n))).buf.ReadableBytes = 0 := by
  obtain ⟨h1, h2⟩ := hInv
  have hrb : b.ReadableBytes = b.writePos - b.readPos := rfl
  refine ⟨rfl, rfl, hneg, rfl, rfl, rfl, rfl, ?_, ?_, ?_⟩
  · show b.writePos - (b.readPos + n) = b.ReadableBytes - n
    rw [hrb]
    omega
  · show (b.store.take b.writePos).drop (b.readPos + n)
        = ((b.store.take b.writePos).drop b.readPos).drop n
    rw [List.drop_drop]
  · show b.writePos - ((b.readPos + n) + (b.ReadableBytes - n)) = 0
    rw [hrb]
    rw [hrb] at hn
    omega

/-- Claim C5 witness: four readable bytes, a short write of one byte, then a
second call delivering the remaining three drains the buffer. -/
theorem C5_writeFd_short_write_witness :
    Buffer.Inv ⟨[1, 2, 3, 4], 0, 4⟩ ∧
    ((-1 : Int) < 0) ∧
    (1 ≤ Buffer.ReadableBytes ⟨[1, 2, 3, 4], 0, 4⟩) ∧
    ((Buffer.WriteFd ⟨[1, 2, 3, 4], 0, 4⟩ 0 (.wrote 1)).buf.WriteFd 0
        (.wrote (Buffer.ReadableBytes ⟨[1, 2, 3, 4], 0, 4⟩ - 1))).buf.ReadableBytes
      = 0 :=
  ⟨by decide, by decide, by decide,
   (C5_writeFd_short_write ⟨[1, 2, 3, 4], 0, 4⟩ 0 (-1) 7 1
      (by decide) (by decide) (by decide)).2.2.2.2.2.2.2.2.2⟩

/-- Claim C6: when the readv inside ReadFd fails with a negative value, the
error slot receives the platform code, the negative value is returned, and
the buffer (store, readPos, writePos) is exactly as before the call. -/
theorem C6_readFd_error_leaves_state (b : Buffer) (s : Nat) (e : Int)
    (code : Nat) (hneg : e < 0) :
    (b.ReadFd s (.fail e code)).buf = b ∧
    (b.ReadFd s (.fail e code)).buf.writePos = b.writePos ∧
    (b.ReadFd s (.fail e code)).buf.readPos = b.readPos ∧
    (b.ReadFd s (.fail e code)).buf.store = b.store ∧
    (b.ReadFd s (.fail e code)).ret = e ∧
    (b.ReadFd s (.fail e code)).ret < 0 ∧
    (b.ReadFd s (.fail e code)).errSlot = code :=
  ⟨rfl, rfl, rfl, rfl, rfl, hneg, rfl⟩

/-- Claim C6 witness: a failed read with return value -1 and errno 11 leaves a
concrete buffer untouched. -/
theorem C6_readFd_error_leaves_state_witness :
    ((-1 : Int) < 0) ∧
    (Buffer.ReadFd ⟨[1, 2, 0], 1, 2⟩ 0 (.fail (-1) 11)).buf = ⟨[1, 2, 0], 1, 2⟩ :=
  ⟨by decide,
   (C6_readFd_error_leaves_state ⟨[1, 2, 0], 1, 2⟩ 0 (-1) 11 (by decide)).1⟩

/-- Claim C7 as frozen quantifies over every buffer state, but retrieval takes
bytes from the front of the readable region: on a buffer whose readable
content is already [1], appending B = [2] and then taking the first
B.length readable bytes yields [1], not B. -/
theorem C7_counterexample :
    ¬ (∀ (b : Buffer) (B : List Nat), b.Inv →
        (b.Append B).readableContent.take B.length = B) := by
  intro h
  exact absurd (h ⟨[1, 0, 0, 0], 0, 1⟩ [2] (by decide)) (by decide)

set_option maxRecDepth 8000 in
/-- Claim C7 amended: on every buffer with no readable bytes, appending B and
then retrieving B.length bytes as a string yields exactly B and leaves nothing
readable; concretely, with initial capacity 1024, Append of hello gives
ReadableBytes 5 with hello as the readable content, and Retrieve 5 then gives
ReadableBytes 0 and PrependableBytes 5. -/
theorem C7_append_retrieve_round_trip (b : Buffer) (B : List Nat)
    (hInv : b.Inv) (hempty : b.ReadableBytes = 0) :
    (b.Append B).readableContent.take B.length = B ∧
    ((b.Append B).Retrieve B.length).ReadableBytes = 0 ∧
    ((Buffer.init 1024).Append [104, 101, 108, 108, 111]).ReadableBytes = 5 ∧
    ((Buffer.init 1024).Append [104, 101, 108, 108, 111]).readableContent
      = [104, 101, 108, 108, 111] ∧
    (((Buffer.init 1024).Append [104, 101, 108, 108, 111]).Retrieve
        5).ReadableBytes = 0 ∧
    (((Buffer.init 1024).Append [104, 101, 108, 108, 111]).Retrieve
        5).PrependableBytes = 5 := by
  obtain ⟨hai, hacont, harb⟩ := append_spec b B hInv
  have h0 : b.readableContent = [] := by
    have := length_readableContent b hInv
    rw [hempty] at this
    exact List.eq_nil_of_length_eq_zero this
  refine ⟨?_, ?_, by decide, by decide, by decide, by decide⟩
  · rw [hacont, h0, List.nil_append, List.take_length]
  · obtain ⟨ha1, ha2⟩ := hai
    have hlb : (b.Append B).writePos - (b.Append B).readPos = B.length := by
      have hh := harb
      unfold Buffer.ReadableBytes at hh
      have he : b.writePos - b.readPos = 0 := hempty
      omega
    show (b.Append B).writePos - ((b.Append B).readPos + B.length) = 0
    omega

/-- Claim C7 witness: appending two bytes to an empty buffer of capacity 8 and
retrieving them yields exactly those bytes. -/
theorem C7_append_retrieve_round_trip_witness :
    Buffer.Inv (Buffer.init 8) ∧
    Buffer.ReadableBytes (Buffer.init 8) = 0 ∧
    ((Buffer.init 8).Append [3, 4]).readableContent.take 2 = [3, 4] :=
  ⟨by decide, by decide,
   (C7_append_retrieve_round_trip (Buffer.init 8) [3, 4]
      (by decide) (by decide)).1⟩

/-- Claim C8: RetrieveAllToStr returns exactly the readable bytes and then
fully resets the buffer: both cursors return to zero, so ReadableBytes and
PrependableBytes are zero, and the whole backing store is zeroed rather than
only the cursors being rewound. -/
theorem C8_retrieveAllToStr_full_reset (b : Buffer) :
    (b.RetrieveAllToStr).1 = b.readableContent ∧
    (b.RetrieveAllToStr).2.ReadableBytes = 0 ∧
    (b.RetrieveAllToStr).2.PrependableBytes = 0 ∧
    (b.RetrieveAllToStr).2.readPos = 0 ∧
    (b.RetrieveAllToStr).2.writePos = 0 ∧
    (b.RetrieveAllToStr).2.store = List.replicate b.store.length 0 :=
  ⟨rfl, rfl, rfl, rfl, rfl, rfl⟩

/-- Claim C9: EnsureWriteable establishes WritableBytes at least n without
changing ReadableBytes, and a second EnsureWriteable with the same n right
after is a no-op on the buffer state. -/
theorem C9_ensureWriteable_idempotent (b : Buffer) (n : Nat) (hInv : b.Inv) :
    n ≤ (b.EnsureWriteable n).WritableBytes ∧
    (b.EnsureWriteable n).ReadableBytes = b.ReadableBytes ∧
    (b.EnsureWriteable n).EnsureWriteable n = b.EnsureWriteable n ∧
    n ≤ ((b.EnsureWriteable n).EnsureWriteable n).WritableBytes ∧
    ((b.EnsureWriteable n).EnsureWriteable n).ReadableBytes
      = b.ReadableBytes := by
  obtain ⟨hi, hw, hcont⟩ := ensureWriteable_spec b n hInv
  have hrb := readableBytes_of_content b _ hInv hi hcont
  have hidem : (b.EnsureWriteable n).EnsureWriteable n = b.EnsureWriteable n := by
    show (if (b.EnsureWriteable n).WritableBytes < n
          then (b.EnsureWriteable n).MakeSpace_ n
          else b.EnsureWriteable n) = b.EnsureWriteable n
    rw [if_neg (by omega)]
  refine ⟨hw, hrb, hidem, ?_, ?_⟩
  · rw [hidem]
    exact hw
  · rw [hidem]
    exact hrb

/-- Claim C9 witness: a buffer with one readable byte, asked twice for four
writable bytes, ends in the same state after the second call. -/
theorem C9_ensureWriteable_idempotent_witness :
    Buffer.Inv ⟨[1, 2, 3], 1, 2⟩ ∧
    (Buffer.EnsureWriteable ⟨[1, 2, 3], 1, 2⟩ 4).EnsureWriteable 4
      = Buffer.EnsureWriteable ⟨[1, 2, 3], 1, 2⟩ 4 :=
  ⟨by decide,
   (C9_ensureWriteable_idempotent ⟨[1, 2, 3], 1, 2⟩ 4 (by decide)).2.2.1⟩

/-- Claim C10: a freshly constructed buffer of capacity c has both cursors at
zero, hence no readable and no prependable bytes, and its entire store of
size c writable without growth. -/
theorem C10_fresh_buffer (c : Nat) :
    (Buffer.init c).readPos = 0 ∧
    (Buffer.init c).writePos = 0 ∧
    (Buffer.init c).ReadableBytes = 0 ∧
    (Buffer.init c).PrependableBytes = 0 ∧
    (Buffer.init c).WritableBytes = c ∧
    (Buffer.init c).Inv := by
  refine ⟨rfl, rfl, rfl, rfl, ?_, Nat.le_refl 0, Nat.zero_le _⟩
  show (List.replicate c 0).length - 0 = c
  simp

